import Mathlib

/-
Verification of the payment-routing gateway (rinha-de-pagamento-25).

The development shallowly embeds the core of `src/api/src/processor.rs`,
`src/api/src/repository.rs` and the `summary` handler of `src/api/src/main.rs`:

* UUIDs are modelled as `Nat`, `rust_decimal::Decimal` amounts as `Int`
  (exact arithmetic, as the source's decimal type), and UTC timestamps as `Int`.
* The persistence store (Postgres table `payments.log` with a unique key on
  `id`) is a `List PaymentRecord`; its unique-key insert and the
  `set_processed_by` update are explicit functions.
* The failover router `submit_external_processor` is embedded fuel-indexed,
  with an oracle `resp : Nat → SendResult` giving the outcome of the POST
  performed on each attempt; the embedding also records which target index
  each attempt contacted and how long the loop slept after each failure.
* The retry loop `maybe_insert_into_db` is embedded fuel-indexed with an
  oracle of store responses.
* The admission gate of `Processor::run_forever` (busy-wait on the atomic
  `in_flight` counter, then `fetch_add`) is a small transition system in
  which the gate check and the increment are separate steps, exactly as the
  two separate atomic operations in the source.
* The SQL of `repository::summary` (filter, group by `processed_by`, left
  join against the configured processor names, `json_object_agg`) is
  embedded as list functions, including the fact that `json_object_agg`
  over zero rows yields SQL NULL, which the `"summary!"` non-null decode
  turns into an error.
-/

namespace Rinha

/-! ## Data model -/

/-- Payment, from `processor.rs`: correlation_id (UUID), amount (Decimal),
requested_at (DateTime). -/
structure Payment where
  correlation_id : Nat
  amount : Int
  requested_at : Int
  deriving DecidableEq, Repr

/-- One row of the `payments.log` table: id (unique key), amount,
requested_at, and the nullable processed_by column. -/
structure PaymentRecord where
  id : Nat
  amount : Int
  requested_at : Int
  processed_by : Option String
  deriving DecidableEq, Repr

/-- ProcessorConfig, from `main.rs`: name and endpoint of an external
processor target. -/
structure ProcessorConfig where
  name : String
  endpoint : String
  deriving DecidableEq, Repr

/-! ## FailoverRouter: `submit_external_processor` -/

/-- Outcome of one POST to a target: a response with an HTTP status, or a
transport-level error. -/
inductive SendResult where
  | ok (status : Nat)
  | err
  deriving DecidableEq, Repr

/-- Embeds `response.status().is_success()`: any 2xx status. -/
def status_is_success (status : Nat) : Bool :=
  200 ≤ status && status < 300

/-- True when the match arm `Ok(response) if response.status().is_success()`
is taken. -/
def attempt_succeeds (r : SendResult) : Bool :=
  match r with
  | .ok status => status_is_success status
  | .err => false

/-- Trace of one routing call: the returned processor name, the target index
contacted on each attempt, and the milliseconds slept after each failed
attempt. -/
structure RouteLog where
  result : String
  contacted : List Nat
  sleeps : List Nat
  deriving DecidableEq, Repr

/-- Fuel-indexed embedding of the loop in `submit_external_processor`.
`resp k` is the outcome of the POST performed on attempt `k` (0-indexed);
`attempts` is the value of the `attempts` variable at the top of the loop
body, i.e. the index of the current attempt.  On each attempt the target
`external_processors[attempts % external_processors.len()]` is contacted;
a 2xx response returns that target's name, any other outcome sleeps
`max(attempts+1, max_wait)` milliseconds and retries.  Returns `none` when
the fuel runs out before a success. -/
def submit_external_processor (targets : List ProcessorConfig) (h : targets ≠ [])
    (resp : Nat → SendResult) (max_wait : Nat) :
    Nat → Nat → Option RouteLog
  | 0, _ => none
  | fuel + 1, attempts =>
    let idx := attempts % targets.length
    let target := targets.get ⟨idx, Nat.mod_lt _ (List.length_pos.mpr h)⟩
    if attempt_succeeds (resp attempts) then
      some ⟨target.name, [idx], []⟩
    else
      match submit_external_processor targets h resp max_wait fuel (attempts + 1) with
      | some log =>
        some ⟨log.result, idx :: log.contacted, max (attempts + 1) max_wait :: log.sleeps⟩
      | none => none

/-! ## Persistence store: `repository::insert` and `repository::set_processed_by` -/

/-- Result of the unique-key insert into `payments.log`. -/
inductive InsertResult where
  | inserted (store : List PaymentRecord)
  | unique_violation
  deriving DecidableEq, Repr

/-- Embeds `repository::insert` together with the table's unique constraint
on `id`: the insert fails with a uniqueness violation exactly when a row
with this correlation id already exists, and otherwise appends a row whose
`processed_by` column is NULL. -/
def repo_insert (store : List PaymentRecord) (p : Payment) : InsertResult :=
  if store.any (fun r => r.id == p.correlation_id) then
    .unique_violation
  else
    .inserted (store ++ [⟨p.correlation_id, p.amount, p.requested_at, none⟩])

/-- Embeds `repository::set_processed_by`:
`update payments.log set processed_by = $2 where id = $1`. -/
def repo_set_processed_by (store : List PaymentRecord) (id : Nat) (name : String) :
    List PaymentRecord :=
  store.map (fun r => if r.id == id then { r with processed_by := some name } else r)

/-- Number of rows of the store carrying the given id. -/
def record_count (id : Nat) (store : List PaymentRecord) : Nat :=
  (store.filter (fun r => r.id == id)).length

/-! ## Retry loop `maybe_insert_into_db` -/

/-- Outcome of one attempt of `repository::insert` as seen by
`maybe_insert_into_db`: success, a database error that is a unique
violation, or any other store error. -/
inductive StoreResult where
  | ok
  | unique_violation_err
  | other_error
  deriving DecidableEq, Repr

/-- Fuel-indexed embedding of the loop in `maybe_insert_into_db`.  `resp k`
is the store's response to the k-th insert attempt.  The loop returns
`Some payment` on success, `None` on a unique violation (silent abort), and
keeps retrying on any other error; `none` at the outer level means the fuel
ran out while the loop was still retrying. -/
def maybe_insert_into_db (p : Payment) (resp : Nat → StoreResult) :
    Nat → Nat → Option (Option Payment)
  | 0, _ => none
  | fuel + 1, k =>
    match resp k with
    | .ok => some (some p)
    | .unique_violation_err => some none
    | .other_error => maybe_insert_into_db p resp fuel (k + 1)

/-! ## SettlementWorker pipeline over a shared store

One worker runs the body of the task spawned in `Processor::run_forever`:
insert the payment (`maybe_insert_into_db`), and only when the insert won,
route it (`submit_external_processor`, whose return value the worker carries
as `route_name`) and reconcile (`set_processed_by`).  Two workers sharing
the store model two submissions racing on the same correlation id; the
store serializes their operations, and a schedule chooses which worker
takes the next step. -/

/-- Progress of one settlement worker: not yet inserted, insert won (about
to route and reconcile), pipeline finished, or silently aborted on a
uniqueness violation. -/
inductive WorkerStatus where
  | ready
  | won
  | finished
  | skipped
  deriving DecidableEq, Repr

/-- One settlement worker: its payment, the name its routing call returns
(the value of `submit_external_processor`), and its progress. -/
structure Worker where
  payment : Payment
  route_name : String
  status : WorkerStatus
  deriving DecidableEq, Repr

/-- Observable actions of a worker after winning the insert: the routing
call returning a processor name, and the reconciliation write. -/
inductive Event where
  | routed (id : Nat) (name : String)
  | reconciled (id : Nat) (name : String)
  deriving DecidableEq, Repr

/-- One store-serialized step of a worker.  From `ready` it runs the insert:
winning moves it to `won`; a uniqueness violation silently aborts it
(`skipped`, store unchanged, no events).  From `won` it performs the
routing call and the reconciliation update, emitting both events and moving
to `finished`.  Terminal states do nothing. -/
def worker_step (store : List PaymentRecord) (w : Worker) :
    List PaymentRecord × Worker × List Event :=
  match w.status with
  | .ready =>
    match repo_insert store w.payment with
    | .inserted store2 => (store2, { w with status := .won }, [])
    | .unique_violation => (store, { w with status := .skipped }, [])
  | .won =>
    (repo_set_processed_by store w.payment.correlation_id w.route_name,
     { w with status := .finished },
     [.routed w.payment.correlation_id w.route_name,
      .reconciled w.payment.correlation_id w.route_name])
  | .finished => (store, w, [])
  | .skipped => (store, w, [])

/-- Two workers racing on one shared store, with the trace of emitted
events. -/
structure PipelineState where
  store : List PaymentRecord
  w0 : Worker
  w1 : Worker
  trace : List Event
  deriving DecidableEq, Repr

/-- One scheduled step: `false` steps worker 0, `true` steps worker 1. -/
def pipeline_step (s : PipelineState) (i : Bool) : PipelineState :=
  if i then
    let out := worker_step s.store s.w1
    ⟨out.1, s.w0, out.2.1, s.trace ++ out.2.2⟩
  else
    let out := worker_step s.store s.w0
    ⟨out.1, out.2.1, s.w1, s.trace ++ out.2.2⟩

/-- Runs a schedule of interleaved worker steps. -/
def pipeline_run (s : PipelineState) : List Bool → PipelineState
  | [] => s
  | i :: rest => pipeline_run (pipeline_step s i) rest

/-- Number of reconciliation events for the given id in a trace. -/
def reconcile_count (id : Nat) (trace : List Event) : Nat :=
  trace.countP (fun e =>
    match e with
    | .reconciled j _ => j == id
    | _ => false)

/-- Number of routing events for the given id in a trace. -/
def route_count (id : Nat) (trace : List Event) : Nat :=
  trace.countP (fun e =>
    match e with
    | .routed j _ => j == id
    | _ => false)

/-- A worker that holds (or held) the unique row for its id: it won the
insert and has not been refuted since. -/
def worker_active (w : Worker) : Bool :=
  w.status == .won || w.status == .finished

/-- One when the worker's pipeline has completed, zero otherwise. -/
def finished_flag (w : Worker) : Nat :=
  if w.status = .finished then 1 else 0

/-- The processed_by value the unique row for the contested id should
carry: the route result of the finished winner, or NULL while nobody has
reconciled yet. -/
def pb_expected (s : PipelineState) : Option String :=
  if s.w0.status = .finished then some s.w0.route_name
  else if s.w1.status = .finished then some s.w1.route_name
  else none

/-- Invariant of two workers racing on the same correlation id `c`: both
carry id `c`; the store holds exactly one row for `c` as soon as either
worker won the insert and none before; the two workers never both hold the
row; a worker is skipped only because the other won; routing and
reconciliation events match the finished workers; and the row's
processed_by is NULL until the winner reconciles, then the winner's route
result. -/
def DupInv (c : Nat) (s : PipelineState) : Prop :=
  s.w0.payment.correlation_id = c ∧
  s.w1.payment.correlation_id = c ∧
  record_count c s.store = (if worker_active s.w0 || worker_active s.w1 then 1 else 0) ∧
  ¬ (worker_active s.w0 = true ∧ worker_active s.w1 = true) ∧
  (s.w0.status = .skipped → worker_active s.w1 = true) ∧
  (s.w1.status = .skipped → worker_active s.w0 = true) ∧
  reconcile_count c s.trace = finished_flag s.w0 + finished_flag s.w1 ∧
  route_count c s.trace = finished_flag s.w0 + finished_flag s.w1 ∧
  ∀ r ∈ s.store, r.id = c → r.processed_by = pb_expected s

/-! ## Admission gate of `Processor::run_forever`

Each spawned task busy-waits until `in_flight.load() < max_in_flight`, then
runs `in_flight.fetch_add(1)`, runs its pipeline, and finally runs
`in_flight.fetch_sub(1)`.  The load and the fetch_add are two separate
atomic operations, so they are two separate transitions here. -/

/-- Phase of one spawned task with respect to the admission gate: still
busy-waiting, passed the load check but not yet incremented, incremented
(pipeline running), or decremented (task finished). -/
inductive GatePhase where
  | waiting
  | passed
  | working
  | done
  deriving DecidableEq, Repr

/-- The shared counter together with the phase of every spawned task. -/
structure AdmissionState where
  in_flight : Int
  phases : List GatePhase
  deriving DecidableEq, Repr

/-- Initial state: counter 0, `n` spawned tasks all busy-waiting. -/
def init_admission (n : Nat) : AdmissionState :=
  ⟨0, List.replicate n .waiting⟩

/-- Interleaved transitions of the admitted tasks.  `check` is the load in
the busy-wait loop observing `in_flight < max_in_flight`; `inc` is the
`fetch_add(1)`; `dec` is the `fetch_sub(1)` after the pipeline. -/
inductive AdmissionStep (max_in_flight : Int) : AdmissionState → AdmissionState → Prop
  | check (s : AdmissionState) (i : Nat) (hp : s.phases.get? i = some .waiting)
      (hlt : s.in_flight < max_in_flight) :
      AdmissionStep max_in_flight s ⟨s.in_flight, s.phases.set i .passed⟩
  | inc (s : AdmissionState) (i : Nat) (hp : s.phases.get? i = some .passed) :
      AdmissionStep max_in_flight s ⟨s.in_flight + 1, s.phases.set i .working⟩
  | dec (s : AdmissionState) (i : Nat) (hp : s.phases.get? i = some .working) :
      AdmissionStep max_in_flight s ⟨s.in_flight - 1, s.phases.set i .done⟩

/-- Reflexive-transitive closure of the admission transitions. -/
inductive AdmissionReachable (m : Int) (s0 : AdmissionState) : AdmissionState → Prop
  | refl : AdmissionReachable m s0 s0
  | step {t u : AdmissionState} : AdmissionReachable m s0 t → AdmissionStep m t u →
      AdmissionReachable m s0 u

/-- Number of tasks currently between their increment and their decrement. -/
def working_count (s : AdmissionState) : Nat :=
  s.phases.countP (fun p => p == .working)

/-! ## SummaryAggregator: `repository::summary` and the `summary` handler -/

/-- Embeds the WHERE clause of the summaries CTE:
`processed_by = any($1) and requested_at >= $2 and requested_at < $3`.
A NULL `processed_by` matches nothing. -/
def summary_matches (names : List String) (lo hi : Int) (r : PaymentRecord) : Bool :=
  (match r.processed_by with
   | some p => names.contains p
   | none => false)
  && decide (lo ≤ r.requested_at) && decide (r.requested_at < hi)

/-- The group of matching rows attributed to one processor name. -/
def name_group (names : List String) (lo hi : Int) (recs : List PaymentRecord)
    (p : String) : List PaymentRecord :=
  (recs.filter (summary_matches names lo hi)).filter (fun r => r.processed_by == some p)

/-- Embeds the summaries CTE: the matching rows grouped by `processed_by`,
each group contributing `(name, sum(amount), count(amount))`. -/
def summaries_rows (names : List String) (lo hi : Int) (recs : List PaymentRecord) :
    List (String × Int × Nat) :=
  ((recs.filter (summary_matches names lo hi)).filterMap (fun r => r.processed_by)).dedup.map
    (fun p => (p, ((name_group names lo hi recs p).map (fun r => r.amount)).sum,
               (name_group names lo hi recs p).length))

/-- Embeds the left join of a configured name against the summaries CTE
with `coalesce(_, 0)` on both aggregates. -/
def coalesce_row (rows : List (String × Int × Nat)) (p : String) : Int × Nat :=
  match rows.find? (fun row => row.1 == p) with
  | some row => row.2
  | none => (0, 0)

/-- Rows fed to `json_object_agg`: one per configured processor name, in
registry order, with zero totals for names that settled nothing. -/
def summary_agg (names : List String) (lo hi : Int) (recs : List PaymentRecord) :
    List (String × Int × Nat) :=
  names.map (fun p => (p, coalesce_row (summaries_rows names lo hi recs) p))

/-- Result of the query as seen through sqlx's non-null `"summary!"`
decode: the aggregated mapping, or a decode error. -/
inductive SummaryOutcome where
  | ok (rows : List (String × Int × Nat))
  | decode_error
  deriving DecidableEq, Repr

/-- Embeds `repository::summary`: `json_object_agg` over zero input rows
yields SQL NULL, and the `"summary!"` annotation makes sqlx fail to decode
NULL, so an empty aggregation surfaces as an error even though the store
answered. -/
def summary (names : List String) (lo hi : Int) (recs : List PaymentRecord) :
    SummaryOutcome :=
  match summary_agg names lo hi recs with
  | [] => .decode_error
  | row :: rest => .ok (row :: rest)

/-- Embeds the `summary` handler of `main.rs`: HTTP 200 with the mapping on
success, HTTP 500 with no body on any error from `repository::summary`. -/
def summary_handler (names : List String) (lo hi : Int) (recs : List PaymentRecord) :
    Nat × Option (List (String × Int × Nat)) :=
  match summary names lo hi recs with
  | .ok rows => (200, some rows)
  | .decode_error => (500, none)

/-! ## Router lemmas -/

/-- On each attempt the router contacts the target at index
`attempts % targets.length`: the contacted-index trace of a run starting at
attempt `k` lists `(k + j) % N` at position `j`. -/
theorem submit_contacted_get (targets : List ProcessorConfig) (h : targets ≠ [])
    (resp : Nat → SendResult) (w : Nat) (fuel : Nat) :
    ∀ k log, submit_external_processor targets h resp w fuel k = some log →
      ∀ j (hj : j < log.contacted.length),
        log.contacted.get ⟨j, hj⟩ = (k + j) % targets.length := by
  induction fuel with
  | zero =>
    intro k log hrun
    simp [submit_external_processor] at hrun
  | succ fuel ih =>
    intro k log hrun
    simp only [submit_external_processor] at hrun
    split at hrun
    · cases hrun
      intro j hj
      have hj0 : j = 0 := Nat.lt_one_iff.mp hj
      subst hj0
      simp
    · split at hrun
      case _ log2 heq =>
        cases hrun
        intro j hj
        cases j with
        | zero => simp
        | succ j =>
          have hj2 : j < log2.contacted.length := by
            simpa using Nat.lt_of_succ_lt_succ hj
          have hrec := ih (k + 1) log2 heq j hj2
          have harith : k + 1 + j = k + (j + 1) := by omega
          calc (((k % targets.length) :: log2.contacted).get ⟨j + 1, hj⟩)
              = log2.contacted.get ⟨j, hj2⟩ := rfl
            _ = (k + 1 + j) % targets.length := hrec
            _ = (k + (j + 1)) % targets.length := by rw [harith]
      case _ heq =>
        simp at hrun

/-- A routing run makes one more attempt than it sleeps, every attempt
before the last fails, and the sleep after the j-th failed attempt of a run
starting at attempt `k` is `max (k + j + 1) w` milliseconds. -/
theorem submit_sleeps_get (targets : List ProcessorConfig) (h : targets ≠ [])
    (resp : Nat → SendResult) (w : Nat) (fuel : Nat) :
    ∀ k log, submit_external_processor targets h resp w fuel k = some log →
      log.contacted.length = log.sleeps.length + 1 ∧
      (∀ j, j < log.sleeps.length → attempt_succeeds (resp (k + j)) = false) ∧
      (∀ j (hj : j < log.sleeps.length), log.sleeps.get ⟨j, hj⟩ = max (k + j + 1) w) := by
  induction fuel with
  | zero =>
    intro k log hrun
    simp [submit_external_processor] at hrun
  | succ fuel ih =>
    intro k log hrun
    simp only [submit_external_processor] at hrun
    split at hrun
    case _ hs =>
      cases hrun
      refine ⟨rfl, ?_, ?_⟩
      · intro j hj
        exact absurd hj (by simp)
      · intro j hj
        exact absurd hj (by simp)
    case _ hs =>
      split at hrun
      case _ log2 heq =>
        cases hrun
        obtain ⟨hlen, hfail, hsleep⟩ := ih (k + 1) log2 heq
        refine ⟨by simpa using hlen, ?_, ?_⟩
        · intro j hj
          cases j with
          | zero => simpa using hs
          | succ j =>
            have hj2 : j < log2.sleeps.length := by
              simpa using Nat.lt_of_succ_lt_succ hj
            have harith : k + 1 + j = k + (j + 1) := by omega
            have := hfail j hj2
            rwa [harith] at this
        · intro j hj
          cases j with
          | zero => simp
          | succ j =>
            have hj2 : j < log2.sleeps.length := by
              simpa using Nat.lt_of_succ_lt_succ hj
            have harith : k + 1 + j + 1 = k + (j + 1) + 1 := by omega
            calc ((max (k + 1) w :: log2.sleeps).get ⟨j + 1, hj⟩)
                = log2.sleeps.get ⟨j, hj2⟩ := rfl
              _ = max (k + 1 + j + 1) w := hsleep j hj2
              _ = max (k + (j + 1) + 1) w := by rw [harith]
      case _ heq =>
        simp at hrun

/-- The routing call returns the name of the target contacted on the first
attempt that gets a 2xx response; every earlier attempt of the run failed. -/
theorem submit_result_first_success (targets : List ProcessorConfig) (h : targets ≠ [])
    (resp : Nat → SendResult) (w : Nat) (fuel : Nat) :
    ∀ k log, submit_external_processor targets h resp w fuel k = some log →
      ∃ n, k ≤ n ∧ attempt_succeeds (resp n) = true ∧
        (∀ m, k ≤ m → m < n → attempt_succeeds (resp m) = false) ∧
        log.result =
          (targets.get ⟨n % targets.length, Nat.mod_lt _ (List.length_pos.mpr h)⟩).name := by
  induction fuel with
  | zero =>
    intro k log hrun
    simp [submit_external_processor] at hrun
  | succ fuel ih =>
    intro k log hrun
    simp only [submit_external_processor] at hrun
    split at hrun
    case _ hs =>
      cases hrun
      exact ⟨k, Nat.le_refl k, hs, fun m hkm hmk => absurd hkm (by omega), rfl⟩
    case _ hs =>
      split at hrun
      case _ log2 heq =>
        cases hrun
        obtain ⟨n, hkn, hsucc, hfail, hres⟩ := ih (k + 1) log2 heq
        refine ⟨n, by omega, hsucc, ?_, hres⟩
        intro m hkm hmn
        rcases Nat.eq_or_lt_of_le hkm with heq2 | hlt
        · rw [← heq2]
          simpa using hs
        · exact hfail m hlt hmn
      case _ heq =>
        simp at hrun

/-! ## Claims C3, C4, C5 -/

/-- C3: for every payment routing call and every attempt number k
(0-indexed), the processor contacted on attempt k is targets[k mod N] from
the ordered registry of N processors; in particular with 2 processors and
failures on attempts 0 to 2, the selection sequence is [0, 1, 0, 1] and
attempt 3 hits P1. -/
theorem round_robin_target_selection
    (targets : List ProcessorConfig) (h : targets ≠ []) (resp : Nat → SendResult)
    (w fuel : Nat) (log : RouteLog)
    (hrun : submit_external_processor targets h resp w fuel 0 = some log) :
    (∀ k (hk : k < log.contacted.length), log.contacted.get ⟨k, hk⟩ = k % targets.length)
    ∧ submit_external_processor [⟨"P0", "e0"⟩, ⟨"P1", "e1"⟩] (by simp)
        (fun k => if k < 3 then SendResult.ok 500 else SendResult.ok 200) w 4 0 =
      some ⟨"P1", [0, 1, 0, 1], [max 1 w, max 2 w, max 3 w]⟩ := by
  constructor
  · intro k hk
    simpa using submit_contacted_get targets h resp w fuel 0 log hrun k hk
  · simp [submit_external_processor, attempt_succeeds, status_is_success]

/-- Witness for C3 at a concrete run: with processors P0, P1 and failures
on attempts 0 to 2, attempt 3 contacts target index 3 mod 2 = 1. -/
theorem round_robin_target_selection_witness :
    ([0, 1, 0, 1] : List Nat).get ⟨3, by decide⟩ = 3 % 2 := by
  have hrun : submit_external_processor [⟨"P0", "e0"⟩, ⟨"P1", "e1"⟩] (by simp)
      (fun k => if k < 3 then SendResult.ok 500 else SendResult.ok 200) 7 4 0 =
      some ⟨"P1", [0, 1, 0, 1], [max 1 7, max 2 7, max 3 7]⟩ := by decide
  have hthm := round_robin_target_selection _ _ _ 7 4 _ hrun
  exact hthm.1 3 (by decide)

/-- C4: the routing call returns the name of the target whose submission is
the first in the attempt sequence to get a 2xx response, and that name is
what reconciliation writes to processedBy; for processors A (always 500)
and B (always 200), the final processedBy is B. -/
theorem failover_returns_first_success
    (targets : List ProcessorConfig) (h : targets ≠ []) (resp : Nat → SendResult)
    (w fuel : Nat) (log : RouteLog)
    (hrun : submit_external_processor targets h resp w fuel 0 = some log) :
    (∃ n, attempt_succeeds (resp n) = true ∧
      (∀ m, m < n → attempt_succeeds (resp m) = false) ∧
      log.result =
        (targets.get ⟨n % targets.length, Nat.mod_lt _ (List.length_pos.mpr h)⟩).name)
    ∧ Option.map RouteLog.result
        (submit_external_processor [⟨"A", "ea"⟩, ⟨"B", "eb"⟩] (by simp)
          (fun k => if k % 2 == 0 then SendResult.ok 500 else SendResult.ok 200) w 2 0) =
      some "B"
    ∧ (pipeline_run ⟨[], ⟨⟨7, 10, 0⟩, "B", .ready⟩, ⟨⟨9, 5, 0⟩, "X", .skipped⟩, []⟩
        [false, false]).store = [⟨7, 10, 0, some "B"⟩] := by
  refine ⟨?_, ?_, by decide⟩
  · obtain ⟨n, _, hsucc, hfail, hres⟩ :=
      submit_result_first_success targets h resp w fuel 0 log hrun
    exact ⟨n, hsucc, fun m hmn => hfail m (Nat.zero_le m) hmn, hres⟩
  · simp [submit_external_processor, attempt_succeeds, status_is_success]

/-- Witness for C4 at a concrete run: with processors A (always 500) and B
(always 200), the routing call returns B, and the worker pipeline writes B
into the record's processedBy. -/
theorem failover_returns_first_success_witness :
    (∃ n, attempt_succeeds ((fun k => if k % 2 == 0 then SendResult.ok 500
        else SendResult.ok 200) n) = true ∧
      (∀ m, m < n → attempt_succeeds ((fun k => if k % 2 == 0 then SendResult.ok 500
        else SendResult.ok 200) m) = false) ∧
      ("B" : String) =
        (([⟨"A", "ea"⟩, ⟨"B", "eb"⟩] : List ProcessorConfig).get
          ⟨n % 2, Nat.mod_lt _ (by decide)⟩).name)
    ∧ (pipeline_run ⟨[], ⟨⟨7, 10, 0⟩, "B", .ready⟩, ⟨⟨9, 5, 0⟩, "X", .skipped⟩, []⟩
        [false, false]).store = [⟨7, 10, 0, some "B"⟩] := by
  have hrun : submit_external_processor [⟨"A", "ea"⟩, ⟨"B", "eb"⟩] (by simp)
      (fun k => if k % 2 == 0 then SendResult.ok 500 else SendResult.ok 200) 7 2 0 =
      some ⟨"B", [0, 1], [max 1 7]⟩ := by decide
  have hthm := failover_returns_first_success _ _ _ 7 2 _ hrun
  obtain ⟨⟨n, hsucc, hfail, hres⟩, _, hstore⟩ := hthm
  exact ⟨⟨n, hsucc, hfail, hres⟩, hstore⟩

/-- C5: after every failed routing attempt k (0-indexed) the router sleeps
exactly max(k+1 milliseconds, maxWait) before the next attempt: the backoff
grows with the attempt count and is floored at the configured minimum. -/
theorem backoff_duration
    (targets : List ProcessorConfig) (h : targets ≠ []) (resp : Nat → SendResult)
    (w fuel : Nat) (log : RouteLog)
    (hrun : submit_external_processor targets h resp w fuel 0 = some log) :
    (∀ k, k < log.sleeps.length → attempt_succeeds (resp k) = false)
    ∧ (∀ k (hk : k < log.sleeps.length), log.sleeps.get ⟨k, hk⟩ = max (k + 1) w) := by
  obtain ⟨hlen, hfail, hsleep⟩ := submit_sleeps_get targets h resp w fuel 0 log hrun
  constructor
  · intro k hk
    simpa using hfail k hk
  · intro k hk
    simpa using hsleep k hk

/-- Witness for C5 at a concrete run: with three failures before the first
success and maxWait 2, the sleeps are max(1,2)=2, max(2,2)=2, max(3,2)=3. -/
theorem backoff_duration_witness :
    ([2, 2, 3] : List Nat).get ⟨2, by decide⟩ = max (2 + 1) 2 := by
  have hrun : submit_external_processor [⟨"P0", "e0"⟩, ⟨"P1", "e1"⟩] (by simp)
      (fun k => if k < 3 then SendResult.ok 500 else SendResult.ok 200) 2 4 0 =
      some ⟨"P1", [0, 1, 0, 1], [2, 2, 3]⟩ := by decide
  have hthm := backoff_duration _ _ _ 2 4 _ hrun
  exact hthm.2 2 (by decide)

/-! ## Claim C1 -/

/-- Setting an element of a list changes a countP total by swapping the
contribution of the old element for that of the new one. -/
theorem countP_set_of_get? {α : Type} (p : α → Bool) (b : α) :
    ∀ (l : List α) (i : Nat) (a : α), l.get? i = some a →
      (l.set i b).countP p + (if p a then 1 else 0) =
        l.countP p + (if p b then 1 else 0) := by
  intro l
  induction l with
  | nil => intro i a h; simp at h
  | cons x xs ih =>
    intro i a h
    cases i with
    | zero =>
      simp only [List.get?] at h
      cases h
      simp [List.countP_cons]
      omega
    | succ i =>
      simp only [List.get?] at h
      have := ih i a h
      simp [List.countP_cons]
      omega

/-- Nobody is between increment and decrement in a freshly spawned batch. -/
theorem countP_replicate_waiting (n : Nat) :
    (List.replicate n GatePhase.waiting).countP (fun q => q == GatePhase.working) = 0 := by
  induction n with
  | zero => rfl
  | succ n ih => simp [List.replicate, List.countP_cons, ih]

/-- Reachable admission states keep the counter equal to the number of
tasks between their increment and their decrement, and keep the number of
spawned tasks fixed. -/
theorem admission_inv (m : Int) (n : Nat) (s : AdmissionState)
    (h : AdmissionReachable m (init_admission n) s) :
    s.in_flight = (working_count s : Int) ∧ s.phases.length = n := by
  induction h with
  | refl => simp [init_admission, working_count, countP_replicate_waiting]
  | step hreach hstep ih =>
    rename_i t u
    obtain ⟨hif, hlen⟩ := ih
    cases hstep with
    | check i hp hlt =>
      have hcnt := countP_set_of_get? (fun q => q == GatePhase.working) GatePhase.passed
        t.phases i GatePhase.waiting hp
      simp only [working_count] at hif ⊢
      simp at hcnt
      constructor
      · rw [hif, hcnt]
      · simpa using hlen
    | inc i hp =>
      have hcnt := countP_set_of_get? (fun q => q == GatePhase.working) GatePhase.working
        t.phases i GatePhase.passed hp
      simp only [working_count] at hif ⊢
      simp at hcnt
      constructor
      · rw [hif, hcnt]
        push_cast
        ring
      · simpa using hlen
    | dec i hp =>
      have hcnt := countP_set_of_get? (fun q => q == GatePhase.working) GatePhase.done
        t.phases i GatePhase.working hp
      simp only [working_count] at hif ⊢
      simp at hcnt
      constructor
      · rw [hif]
        omega
      · simpa using hlen

/-- C1 (amended): for every reachable interleaving of admitted workers the
in-flight counter equals the number of workers that have incremented it and
not yet decremented it, so it never goes below zero and never exceeds the
number of spawned workers; the maxInFlight bound itself does not hold,
because the gate's load and its fetch_add are separate atomic steps (see
the counterexample). -/
theorem in_flight_counter_matches_working (m : Int) (n : Nat) (s : AdmissionState)
    (h : AdmissionReachable m (init_admission n) s) :
    s.in_flight = (working_count s : Int)
    ∧ 0 ≤ s.in_flight ∧ s.in_flight ≤ (n : Int) := by
  obtain ⟨hif, hlen⟩ := admission_inv m n s h
  have hle : working_count s ≤ n := by
    have := List.countP_le_length (fun q => q == GatePhase.working) (l := s.phases)
    simpa [working_count, hlen] using this
  refine ⟨hif, ?_, ?_⟩
  · rw [hif]
    exact_mod_cast Nat.zero_le _
  · rw [hif]
    exact_mod_cast hle

/-- Witness for C1 (amended) at the initial state of two spawned workers
under maxInFlight 1. -/
theorem in_flight_counter_matches_working_witness :
    (init_admission 2).in_flight = (working_count (init_admission 2) : Int)
    ∧ 0 ≤ (init_admission 2).in_flight ∧ (init_admission 2).in_flight ≤ ((2 : Nat) : Int) :=
  in_flight_counter_matches_working 1 2 (init_admission 2) AdmissionReachable.refl

/-- C1 counterexample: with maxInFlight = 1 and two admitted workers, both
workers can pass the gate's load check while the counter is still 0 and
then both increment, so the state with counter 2 is reachable and the
counter exceeds maxInFlight = 1. -/
theorem in_flight_exceeds_max_counterexample :
    AdmissionReachable 1 (init_admission 2) ⟨2, [.working, .working]⟩
    ∧ ¬ ((⟨2, [.working, .working]⟩ : AdmissionState).in_flight ≤ 1) := by
  constructor
  · have h1 : AdmissionReachable 1 (init_admission 2) ⟨0, [.passed, .waiting]⟩ :=
      AdmissionReachable.step AdmissionReachable.refl
        (AdmissionStep.check (init_admission 2) 0 rfl (by decide))
    have h2 : AdmissionReachable 1 (init_admission 2) ⟨0, [.passed, .passed]⟩ :=
      AdmissionReachable.step h1
        (AdmissionStep.check ⟨0, [.passed, .waiting]⟩ 1 rfl (by decide))
    have h3 : AdmissionReachable 1 (init_admission 2) ⟨1, [.working, .passed]⟩ :=
      AdmissionReachable.step h2
        (AdmissionStep.inc ⟨0, [.passed, .passed]⟩ 0 rfl)
    exact AdmissionReachable.step h3
      (AdmissionStep.inc ⟨1, [.working, .passed]⟩ 1 rfl)
  · decide

/-! ## Store lemmas for the worker pipeline -/

/-- The row count for an id is a countP. -/
theorem record_count_eq_countP (c : Nat) (store : List PaymentRecord) :
    record_count c store = store.countP (fun r => r.id == c) := by
  simp [record_count, List.countP_eq_length_filter]

/-- Row counts add over concatenation. -/
theorem record_count_append (c : Nat) (s1 s2 : List PaymentRecord) :
    record_count c (s1 ++ s2) = record_count c s1 + record_count c s2 := by
  simp [record_count_eq_countP, List.countP_append]

/-- The reconciliation update touches no row's id, so row counts are
unchanged. -/
theorem record_count_set_processed_by (c id2 : Nat) (name : String)
    (store : List PaymentRecord) :
    record_count c (repo_set_processed_by store id2 name) = record_count c store := by
  simp only [record_count_eq_countP, repo_set_processed_by, List.countP_map]
  apply List.countP_congr
  intro r _
  by_cases h : r.id == id2 <;> simp [h, Function.comp]

/-- A zero row count means no row carries the id. -/
theorem record_count_eq_zero (c : Nat) (store : List PaymentRecord) :
    record_count c store = 0 ↔ ∀ r ∈ store, r.id ≠ c := by
  simp [record_count_eq_countP, List.countP_eq_zero]

/-- The insert's duplicate check fires exactly on a positive row count. -/
theorem insert_any_iff (store : List PaymentRecord) (c : Nat) :
    store.any (fun r => r.id == c) = true ↔ 0 < record_count c store := by
  rw [record_count_eq_countP, List.countP_pos_iff, List.any_eq_true]

/-- A row of the updated store that carries the updated id carries the new
processed_by value. -/
theorem mem_set_processed_by_same (store : List PaymentRecord) (c : Nat) (name : String)
    (r : PaymentRecord) (h : r ∈ repo_set_processed_by store c name) (hid : r.id = c) :
    r.processed_by = some name := by
  simp only [repo_set_processed_by, List.mem_map] at h
  obtain ⟨r0, hr0, heq⟩ := h
  by_cases hc : (r0.id == c) = true
  · rw [if_pos hc] at heq
    rw [← heq]
  · rw [if_neg hc] at heq
    rw [← heq] at hid
    exact absurd (by simpa using hid) hc

/-- Reconciliation event counts add over concatenation. -/
theorem reconcile_count_append (c : Nat) (t1 t2 : List Event) :
    reconcile_count c (t1 ++ t2) = reconcile_count c t1 + reconcile_count c t2 := by
  simp [reconcile_count, List.countP_append]

/-- Routing event counts add over concatenation. -/
theorem route_count_append (c : Nat) (t1 t2 : List Event) :
    route_count c (t1 ++ t2) = route_count c t1 + route_count c t2 := by
  simp [route_count, List.countP_append]

/-- The event pair emitted by a winning worker contains one reconciliation
for its own id. -/
theorem reconcile_count_pair (c : Nat) (name : String) :
    reconcile_count c [Event.routed c name, Event.reconciled c name] = 1 := by
  simp [reconcile_count, List.countP_cons]

/-- The event pair emitted by a winning worker contains one routing event
for its own id. -/
theorem route_count_pair (c : Nat) (name : String) :
    route_count c [Event.routed c name, Event.reconciled c name] = 1 := by
  simp [route_count, List.countP_cons]

/-- A winning insert happens exactly on a zero row count and appends one
row with a NULL processed_by. -/
theorem repo_insert_inserted {store : List PaymentRecord} {p : Payment}
    {store2 : List PaymentRecord} (h : repo_insert store p = .inserted store2) :
    record_count p.correlation_id store = 0 ∧
    store2 = store ++ [⟨p.correlation_id, p.amount, p.requested_at, none⟩] := by
  unfold repo_insert at h
  split at h
  · simp at h
  · next hany =>
    cases h
    refine ⟨?_, rfl⟩
    have := (insert_any_iff store p.correlation_id).not.mp (by simpa using hany)
    omega

/-- A losing insert happens exactly on a positive row count. -/
theorem repo_insert_unique {store : List PaymentRecord} {p : Payment}
    (h : repo_insert store p = .unique_violation) :
    0 < record_count p.correlation_id store := by
  unfold repo_insert at h
  split at h
  · next hany => exact (insert_any_iff store p.correlation_id).mp hany
  · simp at h

/-- A singleton row for the contested id counts as one. -/
theorem record_count_own_singleton (c : Nat) (am t : Int) :
    record_count c [(⟨c, am, t, none⟩ : PaymentRecord)] = 1 := by
  simp [record_count]

/-! ## Step computation lemmas -/

/-- A ready worker whose insert wins moves to won with the extended store. -/
theorem worker_step_ready_inserted {store : List PaymentRecord} {p : Payment} {n : String}
    {store2 : List PaymentRecord} (h : repo_insert store p = .inserted store2) :
    worker_step store ⟨p, n, .ready⟩ = (store2, ⟨p, n, .won⟩, []) := by
  simp [worker_step, h]

/-- A ready worker whose insert hits the uniqueness violation aborts
silently: store unchanged, no events. -/
theorem worker_step_ready_unique {store : List PaymentRecord} {p : Payment} {n : String}
    (h : repo_insert store p = .unique_violation) :
    worker_step store ⟨p, n, .ready⟩ = (store, ⟨p, n, .skipped⟩, []) := by
  simp [worker_step, h]

/-- A worker that won the insert routes and reconciles. -/
theorem worker_step_won (store : List PaymentRecord) (p : Payment) (n : String) :
    worker_step store ⟨p, n, .won⟩ =
      (repo_set_processed_by store p.correlation_id n, ⟨p, n, .finished⟩,
       [.routed p.correlation_id n, .reconciled p.correlation_id n]) := rfl

/-- A finished worker does nothing. -/
theorem worker_step_finished (store : List PaymentRecord) (p : Payment) (n : String) :
    worker_step store ⟨p, n, .finished⟩ = (store, ⟨p, n, .finished⟩, []) := rfl

/-- A skipped worker does nothing. -/
theorem worker_step_skipped (store : List PaymentRecord) (p : Payment) (n : String) :
    worker_step store ⟨p, n, .skipped⟩ = (store, ⟨p, n, .skipped⟩, []) := rfl

/-- Scheduling false steps worker 0. -/
theorem pipeline_step_false (s : PipelineState) :
    pipeline_step s false =
      ⟨(worker_step s.store s.w0).1, (worker_step s.store s.w0).2.1, s.w1,
       s.trace ++ (worker_step s.store s.w0).2.2⟩ := rfl

/-- Scheduling true steps worker 1. -/
theorem pipeline_step_true (s : PipelineState) :
    pipeline_step s true =
      ⟨(worker_step s.store s.w1).1, s.w0, (worker_step s.store s.w1).2.1,
       s.trace ++ (worker_step s.store s.w1).2.2⟩ := rfl

/-- One interleaved step preserves the duplicate-submission invariant. -/
theorem dup_inv_step (c : Nat) (s : PipelineState) (i : Bool)
    (h : DupInv c s) : DupInv c (pipeline_step s i) := by
  obtain ⟨store, ⟨p0, n0, st0⟩, ⟨p1, n1, st1⟩, tr⟩ := s
  obtain ⟨hc0, hc1, hcount, hboth, hsk0, hsk1, hrec, hrt, hpb⟩ := h
  dsimp only at hc0 hc1 hcount hboth hsk0 hsk1 hrec hrt hpb
  cases i
  case false =>
    rw [pipeline_step_false]
    dsimp only
    cases st0 with
    | ready =>
      cases hins : repo_insert store p0 with
      | inserted store2 =>
        obtain ⟨hz, hst2⟩ := repo_insert_inserted hins
        rw [hc0] at hz hst2
        have hact1 : worker_active ⟨p1, n1, st1⟩ = false := by
          cases hw : worker_active ⟨p1, n1, st1⟩
          · rfl
          · rw [hz, hw] at hcount
            simp [worker_active] at hcount
        have hst1fin : st1 ≠ .finished := by
          intro hfin
          rw [hfin] at hact1
          simp [worker_active] at hact1
        rw [worker_step_ready_inserted hins]
        dsimp only
        refine ⟨hc0, hc1, ?_, ?_, ?_, ?_, ?_, ?_, ?_⟩
        · rw [hst2, record_count_append, hz, record_count_own_singleton]
          simp [worker_active]
        · intro hand
          rw [hact1] at hand
          simp at hand
        · simp [worker_active]
        · intro _
          simp [worker_active]
        · simpa [finished_flag] using hrec
        · simpa [finished_flag] using hrt
        · intro r hr hid
          rw [hst2] at hr
          rcases List.mem_append.mp hr with hr | hr
          · exact absurd hid ((record_count_eq_zero c store).mp hz r hr)
          · have hreq : r = ⟨c, p0.amount, p0.requested_at, none⟩ := by simpa using hr
            rw [hreq]
            simp [pb_expected, hst1fin]
      | unique_violation =>
        have hpos := repo_insert_unique hins
        rw [hc0] at hpos
        have hact1 : worker_active ⟨p1, n1, st1⟩ = true := by
          cases hw : worker_active ⟨p1, n1, st1⟩
          · rw [hw] at hcount
            simp [worker_active] at hcount
            omega
          · rfl
        rw [worker_step_ready_unique hins]
        dsimp only
        refine ⟨hc0, hc1, ?_, ?_, ?_, ?_, ?_, ?_, ?_⟩
        · rw [hact1] at hcount ⊢
          simpa [worker_active] using hcount
        · simp [worker_active]
        · intro _
          exact hact1
        · intro hsk
          have := hsk1 hsk
          simp [worker_active] at this
        · simpa [finished_flag] using hrec
        · simpa [finished_flag] using hrt
        · intro r hr hid
          have := hpb r hr hid
          simpa [pb_expected] using this
    | won =>
      have hact1 : worker_active ⟨p1, n1, st1⟩ = false := by
        cases hw : worker_active ⟨p1, n1, st1⟩
        · rfl
        · exact absurd ⟨by simp [worker_active], hw⟩ hboth
      have hst1fin : st1 ≠ .finished := by
        intro hfin
        rw [hfin] at hact1
        simp [worker_active] at hact1
      rw [worker_step_won]
      dsimp only
      rw [hc0]
      refine ⟨hc0, hc1, ?_, ?_, ?_, ?_, ?_, ?_, ?_⟩
      · rw [record_count_set_processed_by]
        rw [hact1] at hcount ⊢
        simpa [worker_active] using hcount
      · intro hand
        rw [hact1] at hand
        simp at hand
      · simp [worker_active]
      · intro _
        simp [worker_active]
      · rw [reconcile_count_append, reconcile_count_pair]
        have hr0 : reconcile_count c tr = 0 := by
          simpa [finished_flag, hst1fin] using hrec
        simp [hr0, finished_flag, hst1fin]
      · rw [route_count_append, route_count_pair]
        have hr0 : route_count c tr = 0 := by
          simpa [finished_flag, hst1fin] using hrt
        simp [hr0, finished_flag, hst1fin]
      · intro r hr hid
        have := mem_set_processed_by_same store c n0 r hr hid
        rw [this]
        simp [pb_expected]
    | finished =>
      rw [worker_step_finished]
      dsimp only
      rw [List.append_nil]
      exact ⟨hc0, hc1, hcount, hboth, hsk0, hsk1, hrec, hrt, hpb⟩
    | skipped =>
      rw [worker_step_skipped]
      dsimp only
      rw [List.append_nil]
      exact ⟨hc0, hc1, hcount, hboth, hsk0, hsk1, hrec, hrt, hpb⟩
  case true =>
    rw [pipeline_step_true]
    dsimp only
    cases st1 with
    | ready =>
      cases hins : repo_insert store p1 with
      | inserted store2 =>
        obtain ⟨hz, hst2⟩ := repo_insert_inserted hins
        rw [hc1] at hz hst2
        have hact0 : worker_active ⟨p0, n0, st0⟩ = false := by
          cases hw : worker_active ⟨p0, n0, st0⟩
          · rfl
          · rw [hz, hw] at hcount
            simp [worker_active] at hcount
        have hst0fin : st0 ≠ .finished := by
          intro hfin
          rw [hfin] at hact0
          simp [worker_active] at hact0
        rw [worker_step_ready_inserted hins]
        dsimp only
        refine ⟨hc0, hc1, ?_, ?_, ?_, ?_, ?_, ?_, ?_⟩
        · rw [hst2, record_count_append, hz, record_count_own_singleton]
          simp [worker_active]
        · intro hand
          rw [hact0] at hand
          simp at hand
        · intro _
          simp [worker_active]
        · simp [worker_active]
        · simpa [finished_flag] using hrec
        · simpa [finished_flag] using hrt
        · intro r hr hid
          rw [hst2] at hr
          rcases List.mem_append.mp hr with hr | hr
          · exact absurd hid ((record_count_eq_zero c store).mp hz r hr)
          · have hreq : r = ⟨c, p1.amount, p1.requested_at, none⟩ := by simpa using hr
            rw [hreq]
            simp [pb_expected, hst0fin]
      | unique_violation =>
        have hpos := repo_insert_unique hins
        rw [hc1] at hpos
        have hact0 : worker_active ⟨p0, n0, st0⟩ = true := by
          cases hw : worker_active ⟨p0, n0, st0⟩
          · rw [hw] at hcount
            simp [worker_active] at hcount
            omega
          · rfl
        rw [worker_step_ready_unique hins]
        dsimp only
        refine ⟨hc0, hc1, ?_, ?_, ?_, ?_, ?_, ?_, ?_⟩
        · rw [hact0] at hcount ⊢
          simpa [worker_active] using hcount
        · simp [worker_active]
        · intro hsk
          have := hsk0 hsk
          simp [worker_active] at this
        · intro _
          exact hact0
        · simpa [finished_flag] using hrec
        · simpa [finished_flag] using hrt
        · intro r hr hid
          have := hpb r hr hid
          simpa [pb_expected] using this
    | won =>
      have hact0 : worker_active ⟨p0, n0, st0⟩ = false := by
        cases hw : worker_active ⟨p0, n0, st0⟩
        · rfl
        · exact absurd ⟨hw, by simp [worker_active]⟩ hboth
      have hst0fin : st0 ≠ .finished := by
        intro hfin
        rw [hfin] at hact0
        simp [worker_active] at hact0
      rw [worker_step_won]
      dsimp only
      rw [hc1]
      refine ⟨hc0, hc1, ?_, ?_, ?_, ?_, ?_, ?_, ?_⟩
      · rw [record_count_set_processed_by]
        rw [hact0] at hcount ⊢
        simpa [worker_active] using hcount
      · intro hand
        rw [hact0] at hand
        simp at hand
      · intro _
        simp [worker_active]
      · simp [worker_active]
      · rw [reconcile_count_append, reconcile_count_pair]
        have hr0 : reconcile_count c tr = 0 := by
          simpa [finished_flag, hst0fin] using hrec
        simp [hr0, finished_flag, hst0fin]
      · rw [route_count_append, route_count_pair]
        have hr0 : route_count c tr = 0 := by
          simpa [finished_flag, hst0fin] using hrt
        simp [hr0, finished_flag, hst0fin]
      · intro r hr hid
        have := mem_set_processed_by_same store c n1 r hr hid
        rw [this]
        simp [pb_expected, hst0fin]
    | finished =>
      rw [worker_step_finished]
      dsimp only
      rw [List.append_nil]
      exact ⟨hc0, hc1, hcount, hboth, hsk0, hsk1, hrec, hrt, hpb⟩
    | skipped =>
      rw [worker_step_skipped]
      dsimp only
      rw [List.append_nil]
      exact ⟨hc0, hc1, hcount, hboth, hsk0, hsk1, hrec, hrt, hpb⟩

/-- Every interleaving preserves the duplicate-submission invariant. -/
theorem dup_inv_run (c : Nat) (s : PipelineState) (sched : List Bool)
    (h : DupInv c s) : DupInv c (pipeline_run s sched) := by
  induction sched generalizing s with
  | nil => exact h
  | cons i rest ih => exact ih (pipeline_step s i) (dup_inv_step c s i h)

/-- The invariant holds before either racing worker has taken a step. -/
theorem dup_inv_init (store0 : List PaymentRecord) (p0 p1 : Payment) (n0 n1 : String)
    (c : Nat) (h0 : p0.correlation_id = c) (h1 : p1.correlation_id = c)
    (hs : record_count c store0 = 0) :
    DupInv c ⟨store0, ⟨p0, n0, .ready⟩, ⟨p1, n1, .ready⟩, []⟩ := by
  refine ⟨h0, h1, ?_, ?_, ?_, ?_, ?_, ?_, ?_⟩
  · simpa [worker_active] using hs
  · simp [worker_active]
  · simp
  · simp
  · simp [reconcile_count, finished_flag]
  · simp [route_count, finished_flag]
  · intro r hr hid
    exact absurd hid ((record_count_eq_zero c store0).mp hs r hr)

/-- A step never rewrites a worker's payment or route result, only its
status. -/
theorem worker_step_preserves (store : List PaymentRecord) (w : Worker) :
    (worker_step store w).2.1.payment = w.payment ∧
    (worker_step store w).2.1.route_name = w.route_name := by
  obtain ⟨p, n, st⟩ := w
  cases st with
  | ready =>
    cases hins : repo_insert store p with
    | inserted store2 => rw [worker_step_ready_inserted hins]; exact ⟨rfl, rfl⟩
    | unique_violation => rw [worker_step_ready_unique hins]; exact ⟨rfl, rfl⟩
  | won => exact ⟨rfl, rfl⟩
  | finished => exact ⟨rfl, rfl⟩
  | skipped => exact ⟨rfl, rfl⟩

/-- A run never rewrites the workers' route results. -/
theorem pipeline_run_preserves (sched : List Bool) :
    ∀ s : PipelineState,
      (pipeline_run s sched).w0.route_name = s.w0.route_name ∧
      (pipeline_run s sched).w1.route_name = s.w1.route_name := by
  induction sched with
  | nil => intro s; exact ⟨rfl, rfl⟩
  | cons i rest ih =>
    intro s
    have hstep0 : (pipeline_step s i).w0.route_name = s.w0.route_name := by
      cases i
      · rw [pipeline_step_false]
        exact (worker_step_preserves s.store s.w0).2
      · rw [pipeline_step_true]
    have hstep1 : (pipeline_step s i).w1.route_name = s.w1.route_name := by
      cases i
      · rw [pipeline_step_false]
      · rw [pipeline_step_true]
        exact (worker_step_preserves s.store s.w1).2
    have hih := ih (pipeline_step s i)
    constructor
    · show (pipeline_run (pipeline_step s i) rest).w0.route_name = s.w0.route_name
      rw [hih.1, hstep0]
    · show (pipeline_run (pipeline_step s i) rest).w1.route_name = s.w1.route_name
      rw [hih.2, hstep1]

/-- The two finished-flags sum to at most one: both workers cannot have
completed the pipeline for the same correlation id. -/
theorem finished_flag_sum_le_one (f : PipelineState)
    (hboth : ¬ (worker_active f.w0 = true ∧ worker_active f.w1 = true)) :
    finished_flag f.w0 + finished_flag f.w1 ≤ 1 := by
  by_cases hq0 : f.w0.status = .finished
  · by_cases hq1 : f.w1.status = .finished
    · exact absurd ⟨by simp [worker_active, hq0], by simp [worker_active, hq1]⟩ hboth
    · simp [finished_flag, hq0, hq1]
  · simp [finished_flag, hq0]
    by_cases hq1 : f.w1.status = .finished <;> simp [hq1]

/-! ## Claim C2 -/

/-- C2: two submissions carrying the same correlationId, interleaved in any
order, create exactly one PaymentRecord; the worker whose insert hits the
uniqueness violation aborts silently, so at most one routing and one
reconciliation happen, and once both workers are terminal exactly one
finished and the other skipped. -/
theorem duplicate_submission_idempotent
    (store0 : List PaymentRecord) (p0 p1 : Payment) (n0 n1 : String) (c : Nat)
    (h0 : p0.correlation_id = c) (h1 : p1.correlation_id = c)
    (hs : record_count c store0 = 0) (sched : List Bool) (f : PipelineState)
    (hf : f = pipeline_run ⟨store0, ⟨p0, n0, .ready⟩, ⟨p1, n1, .ready⟩, []⟩ sched) :
    record_count c f.store ≤ 1
    ∧ route_count c f.trace ≤ 1
    ∧ reconcile_count c f.trace ≤ 1
    ∧ ((f.w0.status = .finished ∨ f.w0.status = .skipped) →
       (f.w1.status = .finished ∨ f.w1.status = .skipped) →
       record_count c f.store = 1
       ∧ ((f.w0.status = .finished ∧ f.w1.status = .skipped)
          ∨ (f.w0.status = .skipped ∧ f.w1.status = .finished))) := by
  have hinv : DupInv c f := by
    rw [hf]
    exact dup_inv_run c _ sched (dup_inv_init store0 p0 p1 n0 n1 c h0 h1 hs)
  obtain ⟨-, -, hcount, hboth, hsk0, hsk1, hrec, hrt, -⟩ := hinv
  have hflag := finished_flag_sum_le_one f hboth
  refine ⟨?_, ?_, ?_, ?_⟩
  · rw [hcount]
    split <;> omega
  · rw [hrt]; exact hflag
  · rw [hrec]; exact hflag
  · intro ht0 ht1
    rcases ht0 with h0f | h0s
    · rcases ht1 with h1f | h1s
      · exact absurd ⟨by simp [worker_active, h0f], by simp [worker_active, h1f]⟩ hboth
      · have : worker_active f.w0 = true := by simp [worker_active, h0f]
        rw [this] at hcount
        refine ⟨by simpa using hcount, Or.inl ⟨h0f, h1s⟩⟩
    · have h1f : f.w1.status = .finished := by
        have hact1 := hsk0 h0s
        rcases ht1 with h1f | h1s
        · exact h1f
        · simp [worker_active, h1s] at hact1
      have : worker_active f.w1 = true := by simp [worker_active, h1f]
      rw [this] at hcount
      refine ⟨by simpa using hcount, Or.inr ⟨h0s, h1f⟩⟩

/-- Witness for C2 at a concrete race: both submissions carry id 7, the
schedule lets worker 0 insert first, worker 1 then hits the uniqueness
violation and skips, worker 0 finishes; exactly one record exists. -/
theorem duplicate_submission_idempotent_witness :
    record_count 7 (pipeline_run ⟨[], ⟨⟨7, 10, 0⟩, "A", .ready⟩, ⟨⟨7, 10, 0⟩, "B", .ready⟩, []⟩
        [false, true, false]).store = 1
    ∧ (((pipeline_run ⟨[], ⟨⟨7, 10, 0⟩, "A", .ready⟩, ⟨⟨7, 10, 0⟩, "B", .ready⟩, []⟩
          [false, true, false]).w0.status = .finished
        ∧ (pipeline_run ⟨[], ⟨⟨7, 10, 0⟩, "A", .ready⟩, ⟨⟨7, 10, 0⟩, "B", .ready⟩, []⟩
          [false, true, false]).w1.status = .skipped)
       ∨ ((pipeline_run ⟨[], ⟨⟨7, 10, 0⟩, "A", .ready⟩, ⟨⟨7, 10, 0⟩, "B", .ready⟩, []⟩
          [false, true, false]).w0.status = .skipped
        ∧ (pipeline_run ⟨[], ⟨⟨7, 10, 0⟩, "A", .ready⟩, ⟨⟨7, 10, 0⟩, "B", .ready⟩, []⟩
          [false, true, false]).w1.status = .finished)) := by
  have hthm := duplicate_submission_idempotent [] ⟨7, 10, 0⟩ ⟨7, 10, 0⟩ "A" "B" 7 rfl rfl
    (by decide) [false, true, false] _ rfl
  exact hthm.2.2.2 (by decide) (by decide)

/-! ## Claim C9 -/

/-- C9: a PaymentRecord's processedBy starts NULL at insert time, at most
one reconciliation ever happens for its id, the two workers never both
finish, the stored processedBy is either still NULL or the route result of
the unique finished winner, and each worker's route result comes from a
routing run that returned only on a 2xx answer from the named target. -/
theorem processed_by_set_once
    (store0 : List PaymentRecord) (p0 p1 : Payment) (n0 n1 : String) (c : Nat)
    (h0 : p0.correlation_id = c) (h1 : p1.correlation_id = c)
    (hs : record_count c store0 = 0) (sched : List Bool) (f : PipelineState)
    (hf : f = pipeline_run ⟨store0, ⟨p0, n0, .ready⟩, ⟨p1, n1, .ready⟩, []⟩ sched)
    (targets : List ProcessorConfig) (htg : targets ≠ []) (resp0 resp1 : Nat → SendResult)
    (w fuel0 fuel1 : Nat) (log0 log1 : RouteLog)
    (hr0 : submit_external_processor targets htg resp0 w fuel0 0 = some log0)
    (hr1 : submit_external_processor targets htg resp1 w fuel1 0 = some log1)
    (hn0 : n0 = log0.result) (hn1 : n1 = log1.result) :
    (∀ store2, repo_insert store0 p0 = .inserted store2 →
       ∀ r ∈ store2, r.id = c → r.processed_by = none)
    ∧ reconcile_count c f.trace ≤ 1
    ∧ ¬ (f.w0.status = .finished ∧ f.w1.status = .finished)
    ∧ (∀ r ∈ f.store, r.id = c →
         r.processed_by = none
         ∨ (f.w0.status = .finished ∧ r.processed_by = some n0)
         ∨ (f.w1.status = .finished ∧ r.processed_by = some n1))
    ∧ (∃ m, attempt_succeeds (resp0 m) = true ∧
        n0 = (targets.get ⟨m % targets.length, Nat.mod_lt _ (List.length_pos.mpr htg)⟩).name)
    ∧ (∃ m, attempt_succeeds (resp1 m) = true ∧
        n1 = (targets.get ⟨m % targets.length, Nat.mod_lt _ (List.length_pos.mpr htg)⟩).name) := by
  have hinv : DupInv c f := by
    rw [hf]
    exact dup_inv_run c _ sched (dup_inv_init store0 p0 p1 n0 n1 c h0 h1 hs)
  obtain ⟨-, -, hcount, hboth, hsk0, hsk1, hrec, hrt, hpb⟩ := hinv
  have hflag := finished_flag_sum_le_one f hboth
  have hnames := pipeline_run_preserves sched ⟨store0, ⟨p0, n0, .ready⟩, ⟨p1, n1, .ready⟩, []⟩
  have hname0 : f.w0.route_name = n0 := by rw [hf]; exact hnames.1
  have hname1 : f.w1.route_name = n1 := by rw [hf]; exact hnames.2
  refine ⟨?_, ?_, ?_, ?_, ?_, ?_⟩
  · intro store2 hins r hr hid
    obtain ⟨hz, hst2⟩ := repo_insert_inserted hins
    rw [h0] at hst2
    rw [hst2] at hr
    rcases List.mem_append.mp hr with hr | hr
    · exact absurd hid ((record_count_eq_zero c store0).mp hs r hr)
    · have hreq : r = ⟨c, p0.amount, p0.requested_at, none⟩ := by simpa using hr
      rw [hreq]
  · rw [hrec]; exact hflag
  · intro hand
    exact absurd ⟨by simp [worker_active, hand.1], by simp [worker_active, hand.2]⟩ hboth
  · intro r hr hid
    have hpbr := hpb r hr hid
    by_cases hq0 : f.w0.status = .finished
    · rw [hpbr]
      refine Or.inr (Or.inl ⟨hq0, ?_⟩)
      simp [pb_expected, hq0, hname0]
    · by_cases hq1 : f.w1.status = .finished
      · rw [hpbr]
        refine Or.inr (Or.inr ⟨hq1, ?_⟩)
        simp [pb_expected, hq0, hq1, hname1]
      · rw [hpbr]
        refine Or.inl ?_
        simp [pb_expected, hq0, hq1]
  · obtain ⟨m, -, hsucc, -, hres⟩ := submit_result_first_success targets htg resp0 w fuel0 0 log0 hr0
    exact ⟨m, hsucc, by rw [hn0, hres]⟩
  · obtain ⟨m, -, hsucc, -, hres⟩ := submit_result_first_success targets htg resp1 w fuel1 0 log1 hr1
    exact ⟨m, hsucc, by rw [hn1, hres]⟩

/-- Witness for C9 at a concrete race and routing run: both submissions
carry id 7, one target A always answers 200, the winner reconciles once and
writes A. -/
theorem processed_by_set_once_witness :
    (∀ store2, repo_insert [] (⟨7, 10, 0⟩ : Payment) = .inserted store2 →
       ∀ r ∈ store2, r.id = 7 → r.processed_by = none)
    ∧ reconcile_count 7 (pipeline_run
        ⟨[], ⟨⟨7, 10, 0⟩, "A", .ready⟩, ⟨⟨7, 10, 0⟩, "A", .ready⟩, []⟩
        [false, true, false]).trace ≤ 1
    ∧ ¬ ((pipeline_run ⟨[], ⟨⟨7, 10, 0⟩, "A", .ready⟩, ⟨⟨7, 10, 0⟩, "A", .ready⟩, []⟩
          [false, true, false]).w0.status = .finished
        ∧ (pipeline_run ⟨[], ⟨⟨7, 10, 0⟩, "A", .ready⟩, ⟨⟨7, 10, 0⟩, "A", .ready⟩, []⟩
          [false, true, false]).w1.status = .finished)
    ∧ (∀ r ∈ (pipeline_run ⟨[], ⟨⟨7, 10, 0⟩, "A", .ready⟩, ⟨⟨7, 10, 0⟩, "A", .ready⟩, []⟩
          [false, true, false]).store, r.id = 7 →
         r.processed_by = none
         ∨ ((pipeline_run ⟨[], ⟨⟨7, 10, 0⟩, "A", .ready⟩, ⟨⟨7, 10, 0⟩, "A", .ready⟩, []⟩
              [false, true, false]).w0.status = .finished ∧ r.processed_by = some "A")
         ∨ ((pipeline_run ⟨[], ⟨⟨7, 10, 0⟩, "A", .ready⟩, ⟨⟨7, 10, 0⟩, "A", .ready⟩, []⟩
              [false, true, false]).w1.status = .finished ∧ r.processed_by = some "A"))
    ∧ (∃ m, attempt_succeeds ((fun _ => SendResult.ok 200) m) = true ∧
        ("A" : String) = (([⟨"A", "ea"⟩] : List ProcessorConfig).get
          ⟨m % 1, Nat.mod_lt _ (by decide)⟩).name)
    ∧ (∃ m, attempt_succeeds ((fun _ => SendResult.ok 200) m) = true ∧
        ("A" : String) = (([⟨"A", "ea"⟩] : List ProcessorConfig).get
          ⟨m % 1, Nat.mod_lt _ (by decide)⟩).name) := by
  have hrun : submit_external_processor [⟨"A", "ea"⟩] (by simp) (fun _ => SendResult.ok 200)
      3 1 0 = some ⟨"A", [0], []⟩ := by decide
  exact processed_by_set_once [] ⟨7, 10, 0⟩ ⟨7, 10, 0⟩ "A" "A" 7 rfl rfl (by decide)
    [false, true, false] _ rfl [⟨"A", "ea"⟩] (by simp) (fun _ => SendResult.ok 200)
    (fun _ => SendResult.ok 200) 3 1 1 ⟨"A", [0], []⟩ ⟨"A", [0], []⟩ hrun hrun rfl rfl

/-! ## Claim C8 -/

/-- When the insert loop returns, the store's response at the terminating
attempt was a success or a unique violation, every earlier attempt hit some
other store error, and the returned value is Some payment on success and
None on the violation. -/
theorem maybe_insert_returns (p : Payment) (resp : Nat → StoreResult) (fuel : Nat) :
    ∀ k r, maybe_insert_into_db p resp fuel k = some r →
      ∃ n, k ≤ n ∧ n < k + fuel ∧ resp n ≠ .other_error ∧
        (∀ m, k ≤ m → m < n → resp m = .other_error) ∧
        r = (if resp n = .ok then some p else none) := by
  induction fuel with
  | zero =>
    intro k r h
    simp [maybe_insert_into_db] at h
  | succ fuel ih =>
    intro k r h
    simp only [maybe_insert_into_db] at h
    cases hrk : resp k with
    | ok =>
      rw [hrk] at h
      cases h
      exact ⟨k, Nat.le_refl k, by omega, by simp [hrk],
        fun m h1 h2 => absurd h1 (by omega), by simp [hrk]⟩
    | unique_violation_err =>
      rw [hrk] at h
      cases h
      exact ⟨k, Nat.le_refl k, by omega, by simp [hrk],
        fun m h1 h2 => absurd h1 (by omega), by simp [hrk]⟩
    | other_error =>
      rw [hrk] at h
      obtain ⟨n, h1, h2, h3, h4, h5⟩ := ih (k + 1) r h
      refine ⟨n, by omega, by omega, h3, ?_, h5⟩
      intro m hm1 hm2
      rcases Nat.eq_or_lt_of_le hm1 with heq | hlt
      · rw [← heq]
        exact hrk
      · exact h4 m hlt hm2

/-- While the store keeps failing with errors other than a unique
violation, the insert loop is still retrying after any number of attempts:
it neither drops the payment nor surfaces an error. -/
theorem maybe_insert_still_retrying (p : Payment) (resp : Nat → StoreResult) (fuel : Nat) :
    ∀ k, (∀ m, k ≤ m → m < k + fuel → resp m = .other_error) →
      maybe_insert_into_db p resp fuel k = none := by
  induction fuel with
  | zero =>
    intro k hall
    rfl
  | succ fuel ih =>
    intro k hall
    have hrk : resp k = .other_error := hall k (Nat.le_refl k) (by omega)
    simp only [maybe_insert_into_db, hrk]
    exact ih (k + 1) (fun m h1 h2 => hall m (by omega) (by omega))

/-- C8: the persist step returns only when the insert succeeds or reports a
uniqueness violation; on any other store error it retries the same insert
with no attempt ceiling, so for every bound on the number of attempts the
loop is still running if the store kept erroring, the payment is never
dropped and no error reaches the caller. -/
theorem never_drop_persistence (p : Payment) (resp : Nat → StoreResult) (fuel : Nat) :
    (∀ r, maybe_insert_into_db p resp fuel 0 = some r →
       ∃ n, n < fuel ∧ resp n ≠ .other_error ∧
         (∀ m, m < n → resp m = .other_error) ∧
         r = (if resp n = .ok then some p else none))
    ∧ ((∀ m, m < fuel → resp m = .other_error) →
       maybe_insert_into_db p resp fuel 0 = none) := by
  constructor
  · intro r h
    obtain ⟨n, h1, h2, h3, h4, h5⟩ := maybe_insert_returns p resp fuel 0 r h
    exact ⟨n, by omega, h3, fun m hm => h4 m (Nat.zero_le m) hm, h5⟩
  · intro hall
    exact maybe_insert_still_retrying p resp fuel 0 (fun m h1 h2 => hall m (by omega))

/-- Witness for C8: a store that errors once and then reports the unique
violation makes the loop return None at attempt 1; a store that always
errors leaves the loop still retrying after 5 attempts. -/
theorem never_drop_persistence_witness :
    (∃ n, n < 3 ∧
      (fun k => if k < 1 then StoreResult.other_error else StoreResult.unique_violation_err) n
        ≠ .other_error ∧
      (∀ m, m < n →
        (fun k => if k < 1 then StoreResult.other_error else StoreResult.unique_violation_err) m
          = .other_error) ∧
      (none : Option Payment) =
        (if (fun k => if k < 1 then StoreResult.other_error
              else StoreResult.unique_violation_err) n = .ok
         then some ⟨7, 10, 0⟩ else none))
    ∧ maybe_insert_into_db ⟨7, 10, 0⟩ (fun _ => StoreResult.other_error) 5 0 = none := by
  constructor
  · exact (never_drop_persistence ⟨7, 10, 0⟩
      (fun k => if k < 1 then StoreResult.other_error else StoreResult.unique_violation_err)
      3).1 none (by decide)
  · exact (never_drop_persistence ⟨7, 10, 0⟩ (fun _ => StoreResult.other_error) 5).2
      (fun m _ => rfl)

/-! ## Summary lemmas -/

/-- The left join with coalesce computes exactly the per-name totals of the
matching group: the found summaries row for a name carries that name's
group sums, and a missing row coalesces to zeros precisely because the
group is empty. -/
theorem coalesce_summaries (names : List String) (lo hi : Int) (recs : List PaymentRecord)
    (p : String) :
    coalesce_row (summaries_rows names lo hi recs) p =
      (((name_group names lo hi recs p).map (fun r => r.amount)).sum,
       (name_group names lo hi recs p).length) := by
  unfold coalesce_row
  cases hf : (summaries_rows names lo hi recs).find? (fun row => row.1 == p) with
  | none =>
    have hnone := List.find?_eq_none.mp hf
    have hgroup : name_group names lo hi recs p = [] := by
      rw [List.eq_nil_iff_forall_not_mem]
      intro r hrmem
      have h1 := List.mem_of_mem_filter hrmem
      have h2 := List.of_mem_filter hrmem
      have hpmem : p ∈ ((recs.filter (summary_matches names lo hi)).filterMap
          (fun r => r.processed_by)).dedup := by
        rw [List.mem_dedup, List.mem_filterMap]
        exact ⟨r, h1, by simpa using h2⟩
      have hrow := List.mem_map_of_mem
        (fun q => (q, ((name_group names lo hi recs q).map (fun r => r.amount)).sum,
          (name_group names lo hi recs q).length)) hpmem
      exact hnone _ hrow (by simp)
    rw [hgroup]
    simp
  | some row =>
    have hmem := List.mem_of_find?_eq_some hf
    have hpred := List.find?_some hf
    have hp : row.1 = p := by simpa using hpred
    simp only [summaries_rows, List.mem_map] at hmem
    obtain ⟨q, hq, hrow⟩ := hmem
    have hq1 : q = p := by
      rw [← hrow] at hp
      exact hp
    rw [← hrow, hq1]

/-- Prepending a record changes a name's group by exactly that record when
it matches the name and the window, and not at all otherwise. -/
theorem name_group_cons (names : List String) (lo hi : Int) (r : PaymentRecord)
    (recs : List PaymentRecord) (p : String) :
    name_group names lo hi (r :: recs) p =
      if (summary_matches names lo hi r && r.processed_by == some p) = true then
        r :: name_group names lo hi recs p
      else name_group names lo hi recs p := by
  unfold name_group
  by_cases h1 : summary_matches names lo hi r = true
  · by_cases h2 : (r.processed_by == some p) = true
    · simp [List.filter_cons, h1, h2]
    · simp [List.filter_cons, h1, h2]
  · simp [List.filter_cons, h1]

/-! ## Claim C6 -/

/-- C6: a record attributed to a configured processor contributes to that
processor's totals exactly when from ≤ requestedAt < to; in particular a
record with requestedAt equal to from is counted and one with requestedAt
equal to to is not (half-open window). -/
theorem half_open_window (names : List String) (p : String) (lo hi : Int)
    (r : PaymentRecord) (recs : List PaymentRecord)
    (hp : names.contains p = true) (hr : r.processed_by = some p) :
    coalesce_row (summaries_rows names lo hi (r :: recs)) p =
      (if lo ≤ r.requested_at ∧ r.requested_at < hi
       then (r.amount + (coalesce_row (summaries_rows names lo hi recs) p).1,
             (coalesce_row (summaries_rows names lo hi recs) p).2 + 1)
       else coalesce_row (summaries_rows names lo hi recs) p)
    ∧ (r.requested_at = lo → lo < hi →
        (coalesce_row (summaries_rows names lo hi (r :: recs)) p).2 =
          (coalesce_row (summaries_rows names lo hi recs) p).2 + 1)
    ∧ (r.requested_at = hi →
        coalesce_row (summaries_rows names lo hi (r :: recs)) p =
          coalesce_row (summaries_rows names lo hi recs) p) := by
  have hmain : coalesce_row (summaries_rows names lo hi (r :: recs)) p =
      (if lo ≤ r.requested_at ∧ r.requested_at < hi
       then (r.amount + (coalesce_row (summaries_rows names lo hi recs) p).1,
             (coalesce_row (summaries_rows names lo hi recs) p).2 + 1)
       else coalesce_row (summaries_rows names lo hi recs) p) := by
    have hpm : p ∈ names := by simpa using hp
    rw [coalesce_summaries, coalesce_summaries, name_group_cons]
    by_cases h1 : lo ≤ r.requested_at
    · by_cases h2 : r.requested_at < hi
      · simp [summary_matches, hr, hpm, h1, h2]
      · simp [summary_matches, hr, hpm, h1, h2]
    · simp [summary_matches, hr, hpm, h1]
  refine ⟨hmain, ?_, ?_⟩
  · intro he hlt
    rw [hmain, he]
    simp [hlt]
  · intro he
    rw [hmain, he]
    simp

/-- Witness for C6: processor A configured, window [0, 10); the record with
requestedAt = 0 (the window's from) is counted; a record at requestedAt =
10 (the window's to) would be excluded is exercised via the third conjunct
at the concrete instance below. -/
theorem half_open_window_witness :
    (coalesce_row (summaries_rows ["A"] 0 10 [⟨1, 5, 0, some "A"⟩]) "A" =
      (if (0 : Int) ≤ 0 ∧ (0 : Int) < 10
       then (5 + (coalesce_row (summaries_rows ["A"] 0 10 []) "A").1,
             (coalesce_row (summaries_rows ["A"] 0 10 []) "A").2 + 1)
       else coalesce_row (summaries_rows ["A"] 0 10 []) "A")
    ∧ ((0 : Int) = 0 → (0 : Int) < 10 →
        (coalesce_row (summaries_rows ["A"] 0 10 [⟨1, 5, 0, some "A"⟩]) "A").2 =
          (coalesce_row (summaries_rows ["A"] 0 10 []) "A").2 + 1)
    ∧ ((0 : Int) = 10 →
        coalesce_row (summaries_rows ["A"] 0 10 [⟨1, 5, 0, some "A"⟩]) "A" =
          coalesce_row (summaries_rows ["A"] 0 10 []) "A")) :=
  half_open_window ["A"] "A" 0 10 ⟨1, 5, 0, some "A"⟩ [] (by decide) rfl

/-! ## Claim C7 -/

/-- C7: the summary maps every configured name, in registry order, and a
configured processor with no matching record in the window still appears
with totalAmount 0 and totalRequests 0. -/
theorem summary_completeness (names : List String) (p : String) (lo hi : Int)
    (recs : List PaymentRecord) (hp : p ∈ names)
    (hno : ∀ r ∈ recs,
      ¬ (r.processed_by = some p ∧ lo ≤ r.requested_at ∧ r.requested_at < hi)) :
    (p, (0 : Int), (0 : Nat)) ∈ summary_agg names lo hi recs
    ∧ (summary_agg names lo hi recs).map (fun row => row.1) = names := by
  constructor
  · have hgroup : name_group names lo hi recs p = [] := by
      rw [List.eq_nil_iff_forall_not_mem]
      intro r hrmem
      have h1 := List.mem_of_mem_filter hrmem
      have h2 := List.of_mem_filter hrmem
      have h3 := List.of_mem_filter h1
      have h4 := List.mem_of_mem_filter h1
      apply hno r h4
      have hpb : r.processed_by = some p := by simpa using h2
      refine ⟨hpb, ?_, ?_⟩
      · simp only [summary_matches, Bool.and_eq_true, decide_eq_true_eq] at h3
        exact h3.1.2
      · simp only [summary_matches, Bool.and_eq_true, decide_eq_true_eq] at h3
        exact h3.2
    have hzero : coalesce_row (summaries_rows names lo hi recs) p = (0, 0) := by
      rw [coalesce_summaries, hgroup]
      simp
    have hmem := List.mem_map_of_mem
      (fun q => (q, coalesce_row (summaries_rows names lo hi recs) q)) hp
    have hmem2 : (p, coalesce_row (summaries_rows names lo hi recs) p) ∈
        names.map (fun q => (q, coalesce_row (summaries_rows names lo hi recs) q)) := hmem
    rw [hzero] at hmem2
    simpa [summary_agg] using hmem2
  · unfold summary_agg
    rw [List.map_map]
    exact List.map_id names

/-- Witness for C7: processors A and B configured, only an A record exists
in the window, yet B appears with zero totals. -/
theorem summary_completeness_witness :
    ((("B" : String), (0 : Int), (0 : Nat)) ∈
      summary_agg ["A", "B"] 0 10 [⟨1, 5, 3, some "A"⟩])
    ∧ (summary_agg ["A", "B"] 0 10 [⟨1, 5, 3, some "A"⟩]).map (fun row => row.1) =
      ["A", "B"] :=
  summary_completeness ["A", "B"] "B" 0 10 [⟨1, 5, 3, some "A"⟩] (by decide) (by decide)

/-! ## Claim C10 -/

/-- C10: with an empty configured processor list, json_object_agg
aggregates zero rows, yields SQL NULL, the non-null decode of "summary!"
fails, and the query boundary answers HTTP 500 with no mapping, even
though the store answered the query. -/
theorem empty_processor_list_summary_error (names : List String) (lo hi : Int)
    (recs : List PaymentRecord) (hn : names = []) :
    summary names lo hi recs = .decode_error
    ∧ summary_handler names lo hi recs = (500, none) := by
  subst hn
  exact ⟨rfl, rfl⟩

/-- Witness for C10 with a concrete non-failing store holding one settled
record: the handler still answers 500 when no processor is configured. -/
theorem empty_processor_list_summary_error_witness :
    summary [] 0 10 [⟨1, 5, 3, some "A"⟩] = .decode_error
    ∧ summary_handler [] 0 10 [⟨1, 5, 3, some "A"⟩] = (500, none) :=
  empty_processor_list_summary_error [] 0 10 [⟨1, 5, 3, some "A"⟩] rfl

end Rinha
